import Mathlib

/-!
Verification development for the FractalChain repository.

The Python source is shallowly embedded: pure functions become Lean
functions, machine arithmetic is `Nat` with explicit reduction modulo
`2 ^ 32` where the source relies on 32-bit wraparound (SHA-256), Python
floats that only flow into JSON text are carried as their rendered
strings through an explicit rendering parameter, and monetary amounts
are embedded as rationals.  ECDSA signature verification
(`KeyPair.verify` in `src/core/crypto.py`) is kept abstract as a
boolean-valued parameter `ecdsa`: its internals are never relevant to
the claims below, only whether it accepts.
-/

/-! ### SHA-256 over byte lists (embeds `hashlib.sha256(...).hexdigest()`) -/

/-- Modulus for 32-bit words. -/
def m32 : Nat := 4294967296

/-- Right rotation of a 32-bit word. -/
def rotr (n w : Nat) : Nat := ((w >>> n) ||| (w <<< (32 - n))) % m32

def smallSigma0 (x : Nat) : Nat := rotr 7 x ^^^ rotr 18 x ^^^ (x >>> 3)

def smallSigma1 (x : Nat) : Nat := rotr 17 x ^^^ rotr 19 x ^^^ (x >>> 10)

def bigSigma0 (x : Nat) : Nat := rotr 2 x ^^^ rotr 13 x ^^^ rotr 22 x

def bigSigma1 (x : Nat) : Nat := rotr 6 x ^^^ rotr 11 x ^^^ rotr 25 x

/-- The 64 SHA-256 round constants. -/
def shaK : List Nat :=
  [1116352408, 1899447441, 3049323471, 3921009573, 961987163,
   1508970993, 2453635748, 2870763221, 3624381080, 310598401,
   607225278, 1426881987, 1925078388, 2162078206, 2614888103,
   3248222580, 3835390401, 4022224774, 264347078, 604807628,
   770255983, 1249150122, 1555081692, 1996064986, 2554220882,
   2821834349, 2952996808, 3210313671, 3336571891, 3584528711,
   113926993, 338241895, 666307205, 773529912, 1294757372,
   1396182291, 1695183700, 1986661051, 2177026350, 2456956037,
   2730485921, 2820302411, 3259730800, 3345764771, 3516065817,
   3600352804, 4094571909, 275423344, 430227734, 506948616,
   659060556, 883997877, 958139571, 1322822218, 1537002063,
   1747873779, 1955562222, 2024104815, 2227730452, 2361852424,
   2428436474, 2756734187, 3204031479, 3329325298]

/-- The SHA-256 initial hash state. -/
def shaH0 : List Nat :=
  [1779033703, 3144134277, 1013904242, 2773480762, 1359893119,
   2600822924, 528734635, 1541459225]

/-- Big-endian byte rendering of `n` on `k` bytes. -/
def beBytes : Nat → Nat → List Nat
  | 0, _ => []
  | k + 1, n => beBytes k (n / 256) ++ [n % 256]

/-- SHA-256 message padding: append `0x80`, zeros, and the 64-bit bit length. -/
def padMsg (msg : List Nat) : List Nat :=
  let len := msg.length
  let zeros := (119 - len % 64) % 64
  msg ++ 128 :: (List.replicate zeros 0 ++ beBytes 8 (8 * len))

/-- Group bytes into big-endian 32-bit words. -/
def bytesToWords : List Nat → List Nat
  | a :: b :: c :: d :: rest => (((a * 256 + b) * 256 + c) * 256 + d) :: bytesToWords rest
  | _ => []

/-- Split a word list into 16-word blocks; the fuel is the list length. -/
def chunks16 : Nat → List Nat → List (List Nat)
  | 0, _ => []
  | _, [] => []
  | fuel + 1, ws => ws.take 16 :: chunks16 fuel (ws.drop 16)

/-- Message-schedule extension; the word list is kept newest-first. -/
def shaExtend : Nat → List Nat → List Nat
  | 0, wrev => wrev
  | n + 1, wrev =>
    let next := (smallSigma1 (wrev.getD 1 0) + wrev.getD 6 0 +
                 smallSigma0 (wrev.getD 14 0) + wrev.getD 15 0) % m32
    shaExtend n (next :: wrev)

/-- The 64-word schedule of a 16-word block. -/
def fullSchedule (block : List Nat) : List Nat := (shaExtend 48 block.reverse).reverse

/-- One SHA-256 round; the state is the word list `[a,b,c,d,e,f,g,h]`. -/
def shaRound (st : List Nat) (kw : Nat) : List Nat :=
  let a := st.getD 0 0
  let b := st.getD 1 0
  let c := st.getD 2 0
  let d := st.getD 3 0
  let e := st.getD 4 0
  let f := st.getD 5 0
  let g := st.getD 6 0
  let h := st.getD 7 0
  let ch := (e &&& f) ^^^ ((e ^^^ 4294967295) &&& g)
  let t1 := (h + bigSigma1 e + ch + kw) % m32
  let maj := (a &&& b) ^^^ (a &&& c) ^^^ (b &&& c)
  let t2 := (bigSigma0 a + maj) % m32
  [(t1 + t2) % m32, a, b, c, (d + t1) % m32, e, f, g]

/-- Compression of one 16-word block into the running hash state. -/
def shaCompress (hs block : List Nat) : List Nat :=
  let kw := List.zipWith (fun kk ww => (kk + ww) % m32) shaK (fullSchedule block)
  let st := kw.foldl shaRound hs
  List.zipWith (fun x y => (x + y) % m32) hs st

/-- SHA-256 digest (32 bytes) of a byte list. -/
def sha256Bytes (msg : List Nat) : List Nat :=
  let ws := bytesToWords (padMsg msg)
  let hs := (chunks16 ws.length ws).foldl shaCompress shaH0
  hs.foldr (fun w acc => beBytes 4 w ++ acc) []

/-- Lower-case hex digit of a value below 16. -/
def hexChar (n : Nat) : Char := Char.ofNat (if n < 10 then 48 + n else 87 + n)

/-- Lower-case hex rendering of a byte list. -/
def bytesToHex : List Nat → List Char
  | [] => []
  | b :: rest => hexChar (b / 16) :: hexChar (b % 16) :: bytesToHex rest

/-- UTF-8 encoding of one character. -/
def utf8Char (c : Char) : List Nat :=
  let n := c.toNat
  if n < 128 then [n]
  else if n < 2048 then [192 + n / 64, 128 + n % 64]
  else if n < 65536 then [224 + n / 4096, 128 + (n / 64) % 64, 128 + n % 64]
  else [240 + n / 262144, 128 + (n / 4096) % 64, 128 + (n / 64) % 64, 128 + n % 64]

/-- UTF-8 encoding of a string (`str.encode` in Python). -/
def utf8Bytes (s : String) : List Nat := (s.data.map utf8Char).flatten

/-- Embeds `hashlib.sha256(s.encode()).hexdigest()`. -/
def sha256Hex (s : String) : String := String.mk (bytesToHex (sha256Bytes (utf8Bytes s)))

example : sha256Hex "" =
    "e3b0c44298fc1c149afbf4c8996fb92427ae41e4649b934ca495991b7852b855" := by rfl

example : sha256Hex "abc" =
    "ba7816bf8f01cfea414140de5dae2223b00361a396177a9cb410ff61f20015ad" := by rfl

/-! ### Hex parsing and Python string slicing -/

/-- Value of one hex digit, accepting both cases (`int(_, 16)` digits);
the comparisons are on code points, as for the character literals
`'0'`–`'9'`, `'a'`–`'f'`, `'A'`–`'F'`. -/
def hexDigitVal? (c : Char) : Option Nat :=
  if 48 ≤ c.toNat ∧ c.toNat ≤ 57 then some (c.toNat - 48)
  else if 97 ≤ c.toNat ∧ c.toNat ≤ 102 then some (c.toNat - 87)
  else if 65 ≤ c.toNat ∧ c.toNat ≤ 70 then some (c.toNat - 55)
  else none

def hexValAux : List Char → Nat → Option Nat
  | [], acc => some acc
  | c :: rest, acc =>
    match hexDigitVal? c with
    | none => none
    | some d => hexValAux rest (acc * 16 + d)

/-- Embeds `int(s, 16)` on plain hex strings; `none` models the
`ValueError` raised on the empty string or a non-hex character. -/
def hexToNat? (s : String) : Option Nat :=
  match s.data with
  | [] => none
  | l => hexValAux l 0

/-- Total variant used where the source applies `int(_, 16)` to strings
that are always SHA-256 hex digests, so the parse cannot fail. -/
def hexToNatD (s : String) : Nat := (hexToNat? s).getD 0

/-- Python slice `s[:n]`. -/
def strTake (s : String) (n : Nat) : String := String.mk (s.data.take n)

/-- Python slice `s[a:b]` for `a ≤ b`. -/
def strSlice (s : String) (a b : Nat) : String := String.mk ((s.data.drop a).take (b - a))

/-- Python `s.ljust(n, '0')`: pad on the RIGHT with `'0'` up to length `n`. -/
def ljustZero (s : String) (n : Nat) : String :=
  String.mk (s.data ++ List.replicate (n - s.data.length) '0')

/-! ### Python `json.dumps` with `sort_keys=True`

The dictionaries the source hashes or signs are at most two levels deep
(a flat dict, or a block dict with the flat `fractal_proof` dict
inside), so the JSON model distinguishes atoms from one level of
nesting.  Python floats are carried as their rendered text (`JAtom.jnum`
takes the string `repr` of the float), since binary floating point
rendering is outside the embedding; every other part of the rendering
follows `json.dumps` exactly. -/

inductive JAtom where
  | jstr (s : String)
  | jint (n : Int)
  | jnum (r : String)
deriving DecidableEq

inductive JField where
  | atom (a : JAtom)
  | obj (fields : List (String × JAtom))
deriving DecidableEq

/-- JSON string escaping as in `json.dumps` with `ensure_ascii=True`. -/
def jsonEscapeChar (c : Char) : List Char :=
  let n := c.toNat
  if c = '"' then ['\\', '"']
  else if c = '\\' then ['\\', '\\']
  else if n = 8 then ['\\', 'b']
  else if n = 9 then ['\\', 't']
  else if n = 10 then ['\\', 'n']
  else if n = 12 then ['\\', 'f']
  else if n = 13 then ['\\', 'r']
  else if n < 32 then ['\\', 'u', '0', '0', hexChar (n / 16), hexChar (n % 16)]
  else if n < 127 then [c]
  else if n < 65536 then
    ['\\', 'u', hexChar (n / 4096), hexChar (n / 256 % 16), hexChar (n / 16 % 16), hexChar (n % 16)]
  else
    let m := n - 65536
    let hi := 55296 + m / 1024
    let lo := 56320 + m % 1024
    ['\\', 'u', hexChar (hi / 4096), hexChar (hi / 256 % 16), hexChar (hi / 16 % 16), hexChar (hi % 16),
     '\\', 'u', hexChar (lo / 4096), hexChar (lo / 256 % 16), hexChar (lo / 16 % 16), hexChar (lo % 16)]

/-- A JSON string literal: quotes around the escaped text. -/
def jsonQuote (s : String) : String :=
  String.mk ('"' :: (s.data.map jsonEscapeChar).flatten ++ ['"'])

/-- Python `repr` of an int. -/
def intRepr (n : Int) : String :=
  if n < 0 then "-" ++ Nat.repr n.natAbs else Nat.repr n.natAbs

def renderAtom : JAtom → String
  | .jstr s => jsonQuote s
  | .jint n => intRepr n
  | .jnum r => r

/-- Lexicographic code-point comparison of character lists (Python
string `<`). -/
def strLtB : List Char → List Char → Bool
  | [], [] => false
  | [], _ :: _ => true
  | _ :: _, [] => false
  | a :: as, b :: bs =>
    if a.toNat < b.toNat then true
    else if b.toNat < a.toNat then false
    else strLtB as bs

/-- Python string comparison used by `sorted`/`sort_keys`. -/
def keyLt (a b : String) : Bool := strLtB a.data b.data

/-- Insert a key into an already key-sorted field list. -/
def insertField {α : Type} (p : String × α) : List (String × α) → List (String × α)
  | [] => [p]
  | q :: rest => if keyLt p.1 q.1 then p :: q :: rest else q :: insertField p rest

/-- Sort fields by key (`sort_keys=True`); Python compares code points. -/
def sortFields {α : Type} : List (String × α) → List (String × α)
  | [] => []
  | p :: rest => insertField p (sortFields rest)

def renderAtomFields (isep ksep : String) : List (String × JAtom) → String
  | [] => ""
  | [(k, v)] => jsonQuote k ++ ksep ++ renderAtom v
  | (k, v) :: rest => jsonQuote k ++ ksep ++ renderAtom v ++ isep ++ renderAtomFields isep ksep rest

/-- Render an atom-valued object, keys sorted. -/
def renderAtomObj (isep ksep : String) (fs : List (String × JAtom)) : String :=
  "\x7b" ++ renderAtomFields isep ksep (sortFields fs) ++ "\x7d"

def renderField (isep ksep : String) : JField → String
  | .atom a => renderAtom a
  | .obj fs => renderAtomObj isep ksep fs

def renderFields (isep ksep : String) : List (String × JField) → String
  | [] => ""
  | [(k, v)] => jsonQuote k ++ ksep ++ renderField isep ksep v
  | (k, v) :: rest => jsonQuote k ++ ksep ++ renderField isep ksep v ++ isep ++ renderFields isep ksep rest

/-- Embeds `json.dumps(obj, sort_keys=True, separators=(isep, ksep))`
for a two-level dict. -/
def pyDumpsObj (isep ksep : String) (fs : List (String × JField)) : String :=
  "\x7b" ++ renderFields isep ksep (sortFields fs) ++ "\x7d"

/-- Embeds `CryptoUtils.hash_object`: compact separators, sorted keys,
then SHA-256 of the UTF-8 bytes. -/
def hash_object (fs : List (String × JField)) : String :=
  sha256Hex (pyDumpsObj "," ":" fs)

/-! ### Transaction (`src/core/transaction.py`)

`numR` renders a Python float to its JSON text; `ecdsa` is the abstract
`KeyPair.verify(message, signature, address, public_key)`. -/

structure Transaction where
  sender : String
  recipient : String
  amount : ℚ
  fee : ℚ
  timestamp : ℚ
  signature : String
  public_key : String
  tx_hash : String
deriving DecidableEq

/-- Fields of `Transaction.to_dict(include_signature=False)`, in the
source's insertion order. -/
def txFieldsNoSig (numR : ℚ → String) (tx : Transaction) : List (String × JField) :=
  [("sender", .atom (.jstr tx.sender)),
   ("recipient", .atom (.jstr tx.recipient)),
   ("amount", .atom (.jnum (numR tx.amount))),
   ("fee", .atom (.jnum (numR tx.fee))),
   ("timestamp", .atom (.jnum (numR tx.timestamp)))]

/-- The byte string signed in `Transaction.sign`:
`json.dumps(self.to_dict(include_signature=False), sort_keys=True)`
with Python's DEFAULT separators `", "` and `": "`. -/
def txSignMessage (numR : ℚ → String) (tx : Transaction) : String :=
  pyDumpsObj ", " ": " (txFieldsNoSig numR tx)

/-- The byte string checked in `Transaction.verify_signature` (the same
`json.dumps` call as in `sign`). -/
def txVerifyMessage (numR : ℚ → String) (tx : Transaction) : String :=
  pyDumpsObj ", " ": " (txFieldsNoSig numR tx)

/-- `Transaction.calculate_hash`: `CryptoUtils.hash_object` of the same
dict, i.e. SHA-256 of the COMPACT sorted-keys JSON. -/
def txCalculateHash (numR : ℚ → String) (tx : Transaction) : String :=
  hash_object (txFieldsNoSig numR tx)

/-- The preimage string of `tx_hash` (what `hash_object` hashes). -/
def txHashMessage (numR : ℚ → String) (tx : Transaction) : String :=
  pyDumpsObj "," ":" (txFieldsNoSig numR tx)

/-- `Transaction.verify_signature`. -/
def txVerifySignature (ecdsa : String → String → String → String → Bool)
    (numR : ℚ → String) (tx : Transaction) : Bool :=
  if tx.signature = "" ∨ tx.public_key = "" then false
  else ecdsa (txVerifyMessage numR tx) tx.signature tx.sender tx.public_key

/-- `Transaction.is_valid`. -/
def txIsValid (ecdsa : String → String → String → String → Bool)
    (numR : ℚ → String) (tx : Transaction) : Bool :=
  if tx.amount ≤ 0 then false
  else if tx.fee < 0 then false
  else if tx.sender = "COINBASE" then true
  else txVerifySignature ecdsa numR tx

/-! ### Merkle tree (`src/core/merkle.py`)

`MerkleTree._build_tree` stores the levels bottom-up; here the level
walk is re-derived on the fly with the leaf count as fuel (each level
at least halves, so `length` steps always reach the single-node top
level, mirroring the `while len(current_level) > 1` loop). -/

/-- `MerkleTree._hash_pair`. -/
def hashPair (l r : String) : String := sha256Hex (l ++ r)

/-- One level-up step of `_build_tree`: hash pairs, duplicating the
last element of an odd-length level. -/
def pairup : List String → List String
  | [] => []
  | [a] => [hashPair a a]
  | a :: b :: rest => hashPair a b :: pairup rest

/-- Root of the level walk; `fuel` bounds the number of levels. -/
def rootAux : Nat → List String → String
  | 0, l => l.headD ""
  | fuel + 1, l => if l.length ≤ 1 then l.headD "" else rootAux fuel (pairup l)

/-- `compute_merkle_root`. -/
def compute_merkle_root (txs : List String) : String :=
  if txs.isEmpty then sha256Hex "" else rootAux txs.length txs

/-- Sibling and position chosen by `get_proof` at one level. -/
def proofStep (l : List String) (i : Nat) : String × String :=
  if i % 2 == 0 then
    if i + 1 < l.length then (l.getD (i + 1) "", "right") else (l.getD i "", "right")
  else (l.getD (i - 1) "", "left")

/-- The proof path collected by `get_proof`, walking the same levels as
`rootAux`. -/
def proofAux : Nat → List String → Nat → List (String × String)
  | 0, _, _ => []
  | fuel + 1, l, i =>
    if l.length ≤ 1 then [] else proofStep l i :: proofAux fuel (pairup l) (i / 2)

/-- First index of `x` in `l` (Python `list.index`), `none` if absent. -/
def firstIdx? (x : String) : List String → Option Nat
  | [] => none
  | y :: rest => if y = x then some 0 else (firstIdx? x rest).map (· + 1)

/-- `MerkleTree.get_proof`. -/
def get_proof (txs : List String) (h : String) : Option (List (String × String)) :=
  match firstIdx? h txs with
  | none => none
  | some i => some (proofAux txs.length txs i)

/-- One fold step of `verify_proof`: combine with the sibling on the
stated side and rehash. -/
def verifyStep (cur : String) (p : String × String) : String :=
  if p.2 == "left" then hashPair p.1 cur else hashPair cur p.1

/-- `MerkleTree.verify_proof`. -/
def verify_proof (txHash root : String) (proof : List (String × String)) : Bool :=
  proof.foldl verifyStep txHash == root

/-! ### Block (`src/core/block.py`) -/

structure FractalProof where
  nonce : Int
  fractal_seed : String
  solution_point_real : ℚ
  solution_point_imag : ℚ
  fractal_dimension : ℚ
  fractal_data_hash : String
  timestamp : ℚ
deriving DecidableEq

/-- `FractalProof.to_dict` as JSON fields. -/
def fractalProofFields (numR : ℚ → String) (fp : FractalProof) : List (String × JAtom) :=
  [("nonce", .jint fp.nonce),
   ("fractal_seed", .jstr fp.fractal_seed),
   ("solution_point_real", .jnum (numR fp.solution_point_real)),
   ("solution_point_imag", .jnum (numR fp.solution_point_imag)),
   ("fractal_dimension", .jnum (numR fp.fractal_dimension)),
   ("fractal_data_hash", .jstr fp.fractal_data_hash),
   ("timestamp", .jnum (numR fp.timestamp))]

structure Block where
  index : Int
  timestamp : ℚ
  transactions : List Transaction
  previous_hash : String
  miner_address : String
  fractal_proof : Option FractalProof
  merkle_root : String
  block_hash : String
  difficulty_target : ℚ
  header_difficulty_bits : Int
deriving DecidableEq

/-- `Block.calculate_merkle_root`. -/
def blockCalculateMerkleRoot (b : Block) : String :=
  if b.transactions.isEmpty then sha256Hex ""
  else compute_merkle_root (b.transactions.map (·.tx_hash))

/-- The dict hashed by `Block.calculate_hash` (insertion order as in the
source; `fractal_proof` is added only when present). -/
def blockHashFields (numR : ℚ → String) (b : Block) : List (String × JField) :=
  [("index", .atom (.jint b.index)),
   ("timestamp", .atom (.jnum (numR b.timestamp))),
   ("previous_hash", .atom (.jstr b.previous_hash)),
   ("merkle_root", .atom (.jstr b.merkle_root)),
   ("miner_address", .atom (.jstr b.miner_address))] ++
  (match b.fractal_proof with
   | none => []
   | some fp => [("fractal_proof", .obj (fractalProofFields numR fp))])

/-- `Block.calculate_hash`. -/
def blockCalculateHash (numR : ℚ → String) (b : Block) : String :=
  hash_object (blockHashFields numR b)

/-- The dict hashed by `Block.calculate_header_hash` (only the nonce of
the proof is included). -/
def blockHeaderFields (numR : ℚ → String) (b : Block) : List (String × JField) :=
  [("index", .atom (.jint b.index)),
   ("timestamp", .atom (.jnum (numR b.timestamp))),
   ("previous_hash", .atom (.jstr b.previous_hash)),
   ("merkle_root", .atom (.jstr b.merkle_root)),
   ("miner_address", .atom (.jstr b.miner_address))] ++
  (match b.fractal_proof with
   | none => []
   | some fp => [("nonce", .atom (.jint fp.nonce))])

/-- `Block.calculate_header_hash`. -/
def blockCalculateHeaderHash (numR : ℚ → String) (b : Block) : String :=
  hash_object (blockHeaderFields numR b)

/-- Sixty-four `'0'` characters (`"0" * 64`). -/
def zeros64 : String := String.mk (List.replicate 64 '0')

/-- `Block.is_valid`.  The `previous_block` argument is optional exactly
as in the source; `if previous_block and ...` is a `None` test since a
dataclass instance is always truthy. -/
def blockIsValid (ecdsa : String → String → String → String → Bool)
    (numR : ℚ → String) (b : Block) (previous_block : Option Block) : Bool :=
  if b.index == 0 then b.previous_hash == zeros64
  else if (match previous_block with
           | some p => b.previous_hash != p.block_hash
           | none => false) then false
  else if (match previous_block with
           | some p => b.index != p.index + 1
           | none => false) then false
  else if b.merkle_root != blockCalculateMerkleRoot b then false
  else if !(b.transactions.all (fun tx => txIsValid ecdsa numR tx)) then false
  else if (b.transactions.filter (fun tx => tx.sender == "COINBASE")).length != 1 then false
  else if b.block_hash != blockCalculateHash numR b then false
  else true

/-! ### Blockchain state (`src/core/blockchain.py`)

Only the parts the claims touch are embedded: the confirmed balances
(the `balances` dict, as a total map defaulting to `0.0` via
`dict.get(address, 0.0)`) and the pending pool.  `add_transaction`
returns the Python boolean together with the state it leaves behind. -/

structure ChainState where
  balances : String → ℚ
  pending : List Transaction

/-- `Blockchain.get_balance`: confirmed balance minus the amount+fee of
every pending transaction sent by the address. -/
def get_balance (st : ChainState) (address : String) : ℚ :=
  st.balances address -
    ((st.pending.filter (fun tx => tx.sender == address)).map (fun tx => tx.amount + tx.fee)).sum

/-- `Blockchain.add_transaction`. -/
def add_transaction (ecdsa : String → String → String → String → Bool)
    (numR : ℚ → String) (st : ChainState) (tx : Transaction) : Bool × ChainState :=
  if !(txIsValid ecdsa numR tx) then (false, st)
  else if tx.sender ≠ "COINBASE" ∧ get_balance st tx.sender < tx.amount + tx.fee then (false, st)
  else if st.pending.any (fun t => t.tx_hash == tx.tx_hash) then (false, st)
  else (true, { st with pending := st.pending ++ [tx] })

/-- `Blockchain.get_block_reward`; `height` is `len(self.chain)`. -/
def get_block_reward (height : Nat) : ℚ :=
  max (50 / 2 ^ (height / 210000)) (1 / 100000000)

/-- Floor of the base-2 logarithm, with the argument as fuel. -/
def floorLog2Aux : Nat → Nat → Nat
  | 0, _ => 0
  | fuel + 1, n => if n ≤ 1 then 0 else floorLog2Aux fuel (n / 2) + 1

/-- Floor of the base-2 logarithm (0 at 0 and 1). -/
def floorLog2 (n : Nat) : Nat := floorLog2Aux n n

/-- Modelled from the spec: the reward formula as the spec words it,
`floor(log2(index / 210_000))` halvings of 50.0 clamped at `10 ^ (-8)`
(for comparison with the source's `get_block_reward`). -/
def get_block_reward_spec (height : Nat) : ℚ :=
  max (50 / 2 ^ floorLog2 (height / 210000)) (1 / 100000000)

/-! ### Fractal mathematics (`src/consensus/fractal_math.py`)

Complex numbers are embedded as pairs `(re, im) : ℚ × ℚ`.  For
`generate_c_from_seed` the Python expression
`(real_int / max_val) * 2 - 1` is evaluated in IEEE-754 binary64, so
the embedding models that arithmetic exactly on dyadic rationals: the
division `int / 2**64` is correctly rounded to 53 significant bits
(round to nearest, ties to even — what CPython's true division
produces), the doubling is exact in binary64, and the final subtraction
is correctly rounded again.  All intermediate values are dyadic and
comfortably inside the normal range, so this is the exact binary64
semantics of the source.  The numpy/scipy pipeline (Julia-set bitmap
plus box-counting regression) is abstracted as a parameter
`calcDim : c → center → (dimension, r_squared)`; the claims below are
about the seed derivations and the acceptance logic around that
pipeline. -/

/-- Bit length of a natural number (0 for 0). -/
def bitLen (n : Nat) : Nat := if n = 0 then 0 else floorLog2 n + 1

/-- Round-half-even of `n / 2 ^ s` to an integer. -/
def rndShift (n s : Nat) : Nat :=
  if s = 0 then n
  else
    let q := n / 2 ^ s
    let r := n % 2 ^ s
    let h := 2 ^ (s - 1)
    if h < r then q + 1
    else if r < h then q
    else if q % 2 = 0 then q else q + 1

/-- `fl(n / 2 ^ t)` for a nonnegative dyadic rational in the binary64
normal range: keep 53 significant bits of `n`, rounding half to even. -/
def rnd53Pos (n t : Nat) : ℚ :=
  let k := bitLen n
  if k ≤ 53 then (n : ℚ) / 2 ^ t
  else (rndShift n (k - 53) : ℚ) * 2 ^ (k - 53) / 2 ^ t

/-- `fl(n / 2 ^ t)` for a signed dyadic rational (binary64 rounding is
symmetric under negation). -/
def rnd53 (n : ℤ) (t : Nat) : ℚ :=
  if n < 0 then -rnd53Pos n.natAbs t else rnd53Pos n.natAbs t

/-- `fl(r / 2 ^ 64) * 2 ^ 64` as an integer: the numerator, on the
fixed denominator `2 ^ 64`, of the correctly rounded binary64 quotient.
Equals `2 ^ 64` exactly when the quotient rounds up to 1.0 (which
happens iff `r ≥ 2 ^ 64 - 1024`). -/
def flDiv64 (r : Nat) : Nat :=
  let k := bitLen r
  if k ≤ 53 then r else rndShift r (k - 53) * 2 ^ (k - 53)

/-- One component of the Julia parameter under binary64 semantics:
`fl(fl(r / 2 ^ 64) * 2 - 1)`.  With `x = flDiv64 r / 2 ^ 64` the
doubling is exact, so the result is the correctly rounded value of the
dyadic `(2 * flDiv64 r - 2 ^ 64) / 2 ^ 64`. -/
def floatComponent (r : Nat) : ℚ :=
  rnd53 (2 * (flDiv64 r : ℤ) - 18446744073709551616) 64

/-- `JuliaSetGenerator.generate_c_from_seed`: right-pad with `'0'` to 32
chars via `ljust`, parse two 16-hex-digit words, map each through the
binary64 evaluation of `(word / 2 ^ 64) * 2 - 1`. -/
def generate_c_from_seed (seed : String) : Option (ℚ × ℚ) :=
  let s := if seed.length < 32 then ljustZero seed 32 else seed
  match hexToNat? (strTake s 16), hexToNat? (strSlice s 16 32) with
  | some r, some i => some (floatComponent r, floatComponent i)
  | _, _ => none

/-- Modelled from the spec: the same derivation but LEFT-padding the
seed with `'0'` to 32 hex chars, as the spec words it (for comparison
with the source's `generate_c_from_seed`). -/
def generate_c_from_seed_spec (seed : String) : Option (ℚ × ℚ) :=
  let s := if seed.length < 32 then
    String.mk (List.replicate (32 - seed.length) '0' ++ seed.data) else seed
  match hexToNat? (strTake s 16), hexToNat? (strSlice s 16 32) with
  | some r, some i => some (floatComponent r, floatComponent i)
  | _, _ => none

/-- The 16+16 hex-char extraction of a complex point from a 64-hex
digest, as used by `_generate_search_points`, with the component
formula kept as an exact rational: the search-point statements below
compare whole digest chains, and their conclusions are insensitive to
the binary64 rounding of the final division.  `hexToNatD` is total: it
is only applied to SHA-256 hex digests. -/
def extractPoint (s : String) : ℚ × ℚ :=
  (((hexToNatD (strTake s 16) : ℚ) / 18446744073709551616) * 2 - 1,
   ((hexToNatD (strSlice s 16 32) : ℚ) / 18446744073709551616) * 2 - 1)

/-- The loop body of `_generate_search_points`: `current_seed` is
rehashed with the DECIMAL OF THE LOOP COUNTER `i` (starting at 0)
appended, and each digest yields one point. -/
def searchPointsGo (current : String) (i : Nat) : Nat → List (ℚ × ℚ)
  | 0 => []
  | k + 1 =>
    let next := sha256Hex (current ++ Nat.repr i)
    extractPoint next :: searchPointsGo next (i + 1) k

/-- `FractalProofOfWork._generate_search_points`. -/
def generate_search_points (seed : String) (count : Nat) : List (ℚ × ℚ) :=
  searchPointsGo seed 0 count

/-- The rehash chain actually implemented: `chainSeed seed (n+1)` hashes
`chainSeed seed n` with `decimal(n)` appended (0-based counter). -/
def chainSeed (seed : String) : Nat → String
  | 0 => seed
  | n + 1 => sha256Hex (chainSeed seed n ++ Nat.repr n)

/-- Modelled from the spec: the rehash chain as the spec words it,
`seed_i = SHA256(seed_(i-1) || decimal(i))` (for comparison with the
chain implemented by `_generate_search_points`). -/
def chainSeedSpec (seed : String) : Nat → String
  | 0 => seed
  | n + 1 => sha256Hex (chainSeedSpec seed n ++ Nat.repr (n + 1))

/-- `FractalProofOfWork.verify_header_hash`.  The source first runs
`int(header_hash, 16)` (raising on a non-hex string, hence `Option`),
computes an unused `leading_zeros` value, and returns the hex-prefix
comparison. -/
def verify_header_hash (header_hash : String) (difficulty_bits : Nat) : Option Bool :=
  match hexToNat? header_hash with
  | none => none
  | some _ =>
    let hex_zeros := difficulty_bits / 4
    some (strTake header_hash hex_zeros == String.mk (List.replicate hex_zeros '0'))

/-- `FractalProofOfWork.verify_solution`: re-derive `c` from the seed,
recompute dimension and R² at the claimed center through the numeric
pipeline `calcDim`, and test the three strict comparisons. -/
def verify_solution (calcDim : ℚ × ℚ → ℚ × ℚ → ℚ × ℚ)
    (seed : String) (solution_point : ℚ × ℚ)
    (claimed_dimension target_dimension epsilon : ℚ) : Option Bool :=
  match generate_c_from_seed seed with
  | none => none
  | some c =>
    let dr := calcDim c solution_point
    let dimension_match := |dr.1 - target_dimension| < epsilon
    let quality_check := dr.2 > 95 / 100
    let claim_accurate := |dr.1 - claimed_dimension| < 1 / 10000
    some (decide dimension_match && decide quality_check && decide claim_accurate)

/-- `FractalProofOfWork.generate_fractal_seed`. -/
def generate_fractal_seed (prev_hash miner_address : String) (nonce : Int) : String :=
  sha256Hex (prev_hash ++ miner_address ++ intRepr nonce)

/-! ### Shared concrete instances for witnesses and counterexamples -/

/-- A float renderer for instances whose only rendered float is `0.0`
(Python renders `0.0` as `"0.0"`). -/
def numR0 : ℚ → String := fun _ => "0.0"

/-- A float renderer for instances whose only rendered float is `1.0`. -/
def numR1 : ℚ → String := fun _ => "1.0"

/-- An ECDSA oracle under which every presented signature checks out
(models a correctly signed transaction). -/
def ecdsaT : String → String → String → String → Bool := fun _ _ _ _ => true

/-! ### Facts about hex parsing -/

theorem hexDigitVal?_lt {c : Char} {d : Nat} (h : hexDigitVal? c = some d) : d < 16 := by
  unfold hexDigitVal? at h
  split_ifs at h with h1 h2 h3 <;> simp_all <;> omega

theorem hexValAux_lt : ∀ (l : List Char) (acc v : Nat),
    hexValAux l acc = some v → v < (acc + 1) * 16 ^ l.length
  | [], acc, v, h => by
    simp only [hexValAux, Option.some.injEq] at h
    simp [← h, Nat.lt_succ_iff]
  | c :: rest, acc, v, h => by
    unfold hexValAux at h
    cases hd : hexDigitVal? c with
    | none => rw [hd] at h; cases h
    | some d =>
      rw [hd] at h
      have hdlt := hexDigitVal?_lt hd
      have hrec := hexValAux_lt rest (acc * 16 + d) v h
      have hstep : (acc * 16 + d + 1) * 16 ^ rest.length ≤ (acc + 1) * 16 ^ (c :: rest).length := by
        have h16 : acc * 16 + d + 1 ≤ (acc + 1) * 16 := by omega
        calc (acc * 16 + d + 1) * 16 ^ rest.length
            ≤ ((acc + 1) * 16) * 16 ^ rest.length := Nat.mul_le_mul_right _ h16
          _ = (acc + 1) * 16 ^ (c :: rest).length := by
              simp [List.length_cons, pow_succ]; ring
      exact lt_of_lt_of_le hrec hstep

theorem hexValAux_isSome : ∀ (l : List Char) (acc : Nat),
    (∀ c ∈ l, (hexDigitVal? c).isSome) → ∃ v, hexValAux l acc = some v
  | [], acc, _ => ⟨acc, rfl⟩
  | c :: rest, acc, hall => by
    have hc : (hexDigitVal? c).isSome := hall c (List.mem_cons_self c rest)
    cases hd : hexDigitVal? c with
    | none => rw [hd] at hc; cases hc
    | some d =>
      have := hexValAux_isSome rest (acc * 16 + d) (fun x hx => hall x (List.mem_cons_of_mem c hx))
      simpa [hexValAux, hd] using this

theorem hexToNat?_some_of (s : String) (hne : s.data ≠ [])
    (hhex : ∀ c ∈ s.data, (hexDigitVal? c).isSome) :
    ∃ v, hexToNat? s = some v ∧ v < 16 ^ s.data.length := by
  cases hp : s.data with
  | nil => exact absurd hp hne
  | cons c rest =>
    obtain ⟨v, hv⟩ := hexValAux_isSome (c :: rest) 0 (by rw [← hp]; exact hhex)
    refine ⟨v, ?_, ?_⟩
    · unfold hexToNat?
      rw [hp]
      exact hv
    · have := hexValAux_lt (c :: rest) 0 v hv
      simpa [hp] using this

/-! ### C5: block reward -/

/-- C5 counterexample: at chain height 420000 the source pays
`50 / 2 ^ (420000 / 210000) = 12.5`, while the spec formula
`floor(log2(height / 210000))` gives one halving and so `25`. -/
theorem C5_counterexample :
    get_block_reward 420000 = 25 / 2 ∧
    get_block_reward_spec 420000 = 25 ∧
    get_block_reward 420000 ≠ get_block_reward_spec 420000 := by
  have h1 : get_block_reward 420000 = 25 / 2 := by
    unfold get_block_reward
    rw [show (420000 / 210000 : Nat) = 2 from rfl, max_eq_left (by norm_num)]
    norm_num
  have h2 : get_block_reward_spec 420000 = 25 := by
    unfold get_block_reward_spec
    rw [show floorLog2 (420000 / 210000) = 1 from rfl, max_eq_left (by norm_num)]
    norm_num
  exact ⟨h1, h2, by rw [h1, h2]; norm_num⟩

/-- C5 (amended): the block reward is the initial 50.0 halved
`floor(height / 210000)` times (plain integer division of the height by
210000, not `floor(log2(height / 210000))`), clamped below at `10⁻⁸`;
in particular the reward never drops under the clamp. -/
theorem C5_block_reward (height : Nat) :
    get_block_reward height = max (50 * (1 / 2) ^ (height / 210000)) (1 / 100000000) ∧
    (1 : ℚ) / 100000000 ≤ get_block_reward height := by
  constructor
  · unfold get_block_reward
    congr 1
    rw [div_pow, one_pow, mul_div_assoc']
    ring
  · exact le_max_right _ _

/-! ### C7: header-hash pre-filter -/

/-- C7 (confirmed): on a 64-hex-digit header hash, the pre-filter
accepts iff the first `bits / 4` (integer division) hex characters are
all `'0'`; in particular `bits = 15` requires exactly the first 3
characters to be `'0'`. -/
theorem C7_header_prefilter (h : String) (bits : Nat)
    (hlen : h.data.length = 64)
    (hhex : ∀ c ∈ h.data, (hexDigitVal? c).isSome)
    (hbits : bits / 4 ≤ 64) :
    (verify_header_hash h bits = some true ↔ ∀ c ∈ h.data.take (bits / 4), c = '0') ∧
    (verify_header_hash h 15 = some true ↔ ∀ c ∈ h.data.take 3, c = '0') := by
  have hparse : ∃ v, hexToNat? h = some v ∧ v < 16 ^ h.data.length :=
    hexToNat?_some_of h (by intro hnil; rw [hnil] at hlen; simp at hlen) hhex
  obtain ⟨v, hv, -⟩ := hparse
  have main : ∀ bits' : Nat, bits' / 4 ≤ 64 →
      (verify_header_hash h bits' = some true ↔ ∀ c ∈ h.data.take (bits' / 4), c = '0') := by
    intro bits' hb
    unfold verify_header_hash
    rw [hv]
    simp only [Option.some.injEq, strTake, beq_iff_eq, String.ext_iff]
    constructor
    · intro he c hc
      rw [he] at hc
      exact List.eq_of_mem_replicate hc
    · intro hall
      have hlt : (h.data.take (bits' / 4)).length = bits' / 4 := by
        rw [List.length_take]
        omega
      exact List.eq_replicate_of_mem hall |>.trans (by rw [hlt])
  refine ⟨main bits hbits, ?_⟩
  have := main 15 (by omega)
  simpa using this

/-! ### C10: genesis validation path -/

/-- C10 (confirmed): for a block whose `index` is 0, `Block.is_valid`
returns exactly the test `previous_hash == "0" * 64`; no other check
(merkle recomputation, transaction validity, coinbase count, block-hash
recomputation, previous-block checks) is applied. -/
theorem C10_genesis_is_valid (ecdsa : String → String → String → String → Bool)
    (numR : ℚ → String) (b : Block) (prev : Option Block) (h : b.index = 0) :
    blockIsValid ecdsa numR b prev = (b.previous_hash == zeros64) := by
  unfold blockIsValid
  rw [h]
  rfl

/-- A deliberately broken index-0 block: stale merkle root, garbage
block hash, no coinbase, an unverifiable transaction. -/
def junkGenesisBlock : Block :=
  { index := 0, timestamp := 0,
    transactions := [{ sender := "x", recipient := "y", amount := -5, fee := -1,
                       timestamp := 0, signature := "", public_key := "", tx_hash := "zz" }],
    previous_hash := zeros64, miner_address := "m", fractal_proof := none,
    merkle_root := "not-a-merkle-root", block_hash := "not-a-hash",
    difficulty_target := 3 / 2, header_difficulty_bits := 16 }

theorem C10_witness :
    blockIsValid ecdsaT numR0 junkGenesisBlock none =
      (junkGenesisBlock.previous_hash == zeros64) ∧
    blockIsValid ecdsaT numR0 junkGenesisBlock none = true :=
  ⟨C10_genesis_is_valid ecdsaT numR0 junkGenesisBlock none rfl, by rfl⟩

/-! ### C6: solution verification logic -/

/-- C6 (confirmed): with `calcDim` standing for the recomputation of
the bitmap and its box-counting dimension/R² at the claimed center,
`verify_solution` accepts iff all three strict comparisons hold, and a
dimension landing exactly at distance ε from the target is rejected. -/
theorem C6_verify_solution (calcDim : ℚ × ℚ → ℚ × ℚ → ℚ × ℚ)
    (seed : String) (pt : ℚ × ℚ) (claimed target eps : ℚ) (c : ℚ × ℚ)
    (hc : generate_c_from_seed seed = some c) :
    (verify_solution calcDim seed pt claimed target eps = some true ↔
      (|(calcDim c pt).1 - target| < eps ∧ (calcDim c pt).2 > 95 / 100 ∧
       |(calcDim c pt).1 - claimed| < 1 / 10000)) ∧
    (|(calcDim c pt).1 - target| = eps →
      verify_solution calcDim seed pt claimed target eps ≠ some true) := by
  have hmain : verify_solution calcDim seed pt claimed target eps = some true ↔
      (|(calcDim c pt).1 - target| < eps ∧ (calcDim c pt).2 > 95 / 100 ∧
       |(calcDim c pt).1 - claimed| < 1 / 10000) := by
    unfold verify_solution
    rw [hc]
    simp [Bool.and_eq_true, decide_eq_true_iff, and_assoc]
  refine ⟨hmain, fun heq hacc => ?_⟩
  have := (hmain.mp hacc).1
  rw [heq] at this
  exact lt_irrefl _ this

/-! Facts about the binary64 rounding helpers: specification of
`floorLog2`/`bitLen`, bounds showing every rounded component stays in
`[-1, 1]`, and evaluation lemmas for concrete inputs. -/

theorem floorLog2Aux_lt : ∀ (fuel n : Nat), 1 ≤ n → n ≤ fuel →
    n < 2 ^ (floorLog2Aux fuel n + 1) := by
  intro fuel
  induction fuel with
  | zero => intro n h1 h2; omega
  | succ fuel ih =>
    intro n h1 h2
    by_cases hn : n ≤ 1
    · have hone : n = 1 := by omega
      subst hone
      simp [floorLog2Aux]
    · have heq : floorLog2Aux (fuel + 1) n = floorLog2Aux fuel (n / 2) + 1 := by
        simp [floorLog2Aux, hn]
      have hrec := ih (n / 2) (by omega) (by omega)
      rw [heq, pow_succ]
      omega

theorem floorLog2Aux_le : ∀ (fuel n : Nat), 1 ≤ n → n ≤ fuel →
    2 ^ floorLog2Aux fuel n ≤ n := by
  intro fuel
  induction fuel with
  | zero => intro n h1 h2; omega
  | succ fuel ih =>
    intro n h1 h2
    by_cases hn : n ≤ 1
    · have heq : floorLog2Aux (fuel + 1) n = 0 := by simp [floorLog2Aux, hn]
      rw [heq]
      simpa using h1
    · have heq : floorLog2Aux (fuel + 1) n = floorLog2Aux fuel (n / 2) + 1 := by
        simp [floorLog2Aux, hn]
      have hrec := ih (n / 2) (by omega) (by omega)
      rw [heq, pow_succ]
      omega

theorem bitLen_lt (n : Nat) : n < 2 ^ bitLen n := by
  unfold bitLen
  split
  · next h => rw [h]; norm_num
  · next h => exact floorLog2Aux_lt n n (by omega) (le_refl n)

theorem bitLen_le_of_lt {n k : Nat} (h : n < 2 ^ k) : bitLen n ≤ k := by
  unfold bitLen
  split
  · omega
  · next hn =>
    by_contra hcon
    have h1 : 2 ^ floorLog2Aux n n ≤ n := floorLog2Aux_le n n (by omega) (le_refl n)
    have h2 : 2 ^ k ≤ 2 ^ floorLog2Aux n n := Nat.pow_le_pow_right (by norm_num) (by
      show k ≤ floorLog2 n
      omega)
    omega

theorem rndShift_le (n s : Nat) : rndShift n s ≤ n / 2 ^ s + 1 := by
  unfold rndShift
  by_cases hs : s = 0
  · subst hs
    simp
  · rw [if_neg hs]
    dsimp only
    split_ifs <;> omega

theorem rndShift_mul_le {m : Nat} (hm : m < 18446744073709551616)
    (hk : ¬ bitLen m ≤ 53) :
    rndShift m (bitLen m - 53) * 2 ^ (bitLen m - 53) ≤ 18446744073709551616 := by
  have hm' : m < 2 ^ 64 := by norm_num [hm]
  have hk64 : bitLen m ≤ 64 := bitLen_le_of_lt hm'
  have hq : m / 2 ^ (bitLen m - 53) < 2 ^ 53 := by
    rw [Nat.div_lt_iff_lt_mul (pow_pos (by norm_num) _)]
    calc m < 2 ^ bitLen m := bitLen_lt m
      _ = 2 ^ 53 * 2 ^ (bitLen m - 53) := by rw [← pow_add]; congr 1; omega
  have h2 : rndShift m (bitLen m - 53) ≤ 2 ^ 53 :=
    le_trans (rndShift_le _ _) (by omega)
  calc rndShift m (bitLen m - 53) * 2 ^ (bitLen m - 53)
      ≤ 2 ^ 53 * 2 ^ (bitLen m - 53) := Nat.mul_le_mul_right _ h2
    _ = 2 ^ bitLen m := by rw [← pow_add]; congr 1; omega
    _ ≤ 2 ^ 64 := Nat.pow_le_pow_right (by norm_num) hk64
    _ = 18446744073709551616 := by norm_num

theorem flDiv64_le {r : Nat} (hr : r < 18446744073709551616) :
    flDiv64 r ≤ 18446744073709551616 := by
  unfold flDiv64
  dsimp only
  split
  · omega
  · next hk => exact rndShift_mul_le hr hk

theorem rnd53Pos_nonneg (m t : Nat) : 0 ≤ rnd53Pos m t := by
  unfold rnd53Pos
  dsimp only
  split <;> positivity

theorem rnd53Pos_eval (m s q : Nat) (hs : bitLen m - 53 = s)
    (h53 : ¬ bitLen m ≤ 53) (hq : rndShift m s = q) :
    rnd53Pos m 64 = (q : ℚ) * 2 ^ s / 2 ^ 64 := by
  unfold rnd53Pos
  dsimp only
  rw [if_neg h53, hs, hq]

theorem rnd53Pos_big : rnd53Pos 18446744073709551616 64 = 1 := by
  rw [rnd53Pos_eval 18446744073709551616 12 4503599627370496 (by decide) (by decide)
    (by decide)]
  norm_num

theorem rnd53Pos_zeroQ : rnd53Pos 0 64 = 0 := by
  unfold rnd53Pos
  dsimp only
  rw [if_pos (by decide)]
  norm_num

theorem rnd53Pos_le_one {m : Nat} (hm : m ≤ 18446744073709551616) :
    rnd53Pos m 64 ≤ 1 := by
  rcases eq_or_lt_of_le hm with heq | hlt
  · subst heq
    rw [rnd53Pos_big]
  · unfold rnd53Pos
    dsimp only
    split
    · next hk =>
      rw [div_le_one (by positivity)]
      have hcast : (m : ℚ) ≤ 18446744073709551616 := by exact_mod_cast hm
      calc (m : ℚ) ≤ 18446744073709551616 := hcast
        _ = 2 ^ 64 := by norm_num
    · next hk =>
      have hb := rndShift_mul_le hlt hk
      rw [div_le_one (by positivity)]
      calc ((rndShift m (bitLen m - 53) : ℚ)) * 2 ^ (bitLen m - 53)
          = ((rndShift m (bitLen m - 53) * 2 ^ (bitLen m - 53) : Nat) : ℚ) := by
            push_cast
            ring
        _ ≤ ((18446744073709551616 : Nat) : ℚ) := by exact_mod_cast hb
        _ = 2 ^ 64 := by norm_num

theorem rnd53_neg_eval (n : ℤ) (m : Nat) (hneg : n < 0) (habs : n.natAbs = m) :
    rnd53 n 64 = -rnd53Pos m 64 := by
  unfold rnd53
  rw [if_pos hneg, habs]

theorem rnd53_nonneg_eval (n : ℤ) (m : Nat) (hpos : ¬ n < 0) (habs : n.natAbs = m) :
    rnd53 n 64 = rnd53Pos m 64 := by
  unfold rnd53
  rw [if_neg hpos, habs]

theorem rnd53_bounds {n : ℤ} (hn : n.natAbs ≤ 18446744073709551616) :
    -1 ≤ rnd53 n 64 ∧ rnd53 n 64 ≤ 1 := by
  unfold rnd53
  split
  · constructor
    · have := rnd53Pos_le_one hn
      linarith
    · have := rnd53Pos_nonneg n.natAbs 64
      linarith
  · constructor
    · have := rnd53Pos_nonneg n.natAbs 64
      linarith
    · exact rnd53Pos_le_one hn

theorem floatComponent_bounds {r : Nat} (hr : r < 18446744073709551616) :
    -1 ≤ floatComponent r ∧ floatComponent r ≤ 1 := by
  unfold floatComponent
  apply rnd53_bounds
  have h1 : flDiv64 r ≤ 18446744073709551616 := flDiv64_le hr
  have h2 : ((flDiv64 r : Nat) : ℤ) ≤ 18446744073709551616 := by exact_mod_cast h1
  have h3 : (0 : ℤ) ≤ ((flDiv64 r : Nat) : ℤ) := Int.natCast_nonneg _
  omega

theorem floatComponent_eval (r fd : Nat) (n : ℤ) (hfd : flDiv64 r = fd)
    (hn : 2 * (fd : ℤ) - 18446744073709551616 = n) :
    floatComponent r = rnd53 n 64 := by
  unfold floatComponent
  rw [hfd, hn]

/-- `R = 0` gives exactly `-1.0`. -/
theorem floatComponent_zero : floatComponent 0 = -1 := by
  rw [floatComponent_eval 0 0 (-18446744073709551616) (by decide) (by decide),
    rnd53_neg_eval _ 18446744073709551616 (by decide) (by decide), rnd53Pos_big]

/-- `R = 2^63` gives exactly `0.0` (no rounding anywhere). -/
theorem floatComponent_half : floatComponent 9223372036854775808 = 0 := by
  rw [floatComponent_eval 9223372036854775808 9223372036854775808 0 (by decide) (by decide),
    rnd53_nonneg_eval 0 0 (by decide) (by decide), rnd53Pos_zeroQ]

/-- `R = 2^64 - 1` gives exactly `1.0`: the division rounds up to 1.0
(as it does for every `R ≥ 2^64 - 1024`). -/
theorem floatComponent_big : floatComponent 18446744073709551615 = 1 := by
  rw [floatComponent_eval 18446744073709551615 18446744073709551616 18446744073709551616
      (by decide) (by decide),
    rnd53_nonneg_eval 18446744073709551616 18446744073709551616 (by decide) (by decide),
    rnd53Pos_big]

/-- `R = 8` gives exactly `-1.0`: `2^-60 - 1` is within half an ulp of
`-1` and rounds to it. -/
theorem floatComponent_eight : floatComponent 8 = -1 := by
  rw [floatComponent_eval 8 8 (-18446744073709551600) (by decide) (by decide),
    rnd53_neg_eval _ 18446744073709551600 (by decide) (by decide),
    rnd53Pos_eval 18446744073709551600 11 9007199254740992 (by decide) (by decide)
      (by decide)]
  norm_num

/-- Evaluation helper: once the two hex parses of the (padded) seed are
known, `generate_c_from_seed` is the pair of rounded components. -/
theorem generate_c_eval (seed : String) (r i : Nat)
    (h1 : hexToNat? (strTake (if seed.length < 32 then ljustZero seed 32 else seed) 16) = some r)
    (h2 : hexToNat? (strSlice (if seed.length < 32 then ljustZero seed 32 else seed) 16 32) =
      some i) :
    generate_c_from_seed seed = some (floatComponent r, floatComponent i) := by
  simp only [generate_c_from_seed]
  rw [h1, h2]

theorem gen_c_00 : generate_c_from_seed "00" = some (-1, -1) := by
  rw [generate_c_eval "00" 0 0 (by decide) (by decide), floatComponent_zero]

theorem C6_witness :
    generate_c_from_seed "00" = some (-1, -1) ∧
    ((verify_solution (fun _ _ => ((3 : ℚ) / 2, (1 : ℚ))) "00" (0, 0) (3 / 2) (3 / 2) (1 / 1000) =
        some true ↔
      (|((3 : ℚ) / 2) - 3 / 2| < 1 / 1000 ∧ (1 : ℚ) > 95 / 100 ∧
       |((3 : ℚ) / 2) - 3 / 2| < 1 / 10000)) ∧
     (|((3 : ℚ) / 2) - 3 / 2| = 1 / 1000 →
      verify_solution (fun _ _ => ((3 : ℚ) / 2, (1 : ℚ))) "00" (0, 0) (3 / 2) (3 / 2) (1 / 1000) ≠
        some true)) :=
  ⟨gen_c_00,
   C6_verify_solution (fun _ _ => ((3 : ℚ) / 2, (1 : ℚ))) "00" (0, 0) (3 / 2) (3 / 2) (1 / 1000)
     (-1, -1) gen_c_00⟩

/-- A 64-hex-character header hash with exactly 3 leading zeros. -/
def c7h : String := "000abcdef0123456789abcdef0123456789abcdef0123456789abcdef0123456"

theorem C7_witness :
    (verify_header_hash c7h 15 = some true ↔ ∀ c ∈ c7h.data.take (15 / 4), c = '0') ∧
    (verify_header_hash c7h 15 = some true ↔ ∀ c ∈ c7h.data.take 3, c = '0') :=
  C7_header_prefilter c7h 15 (by decide) (by decide) (by decide)

/-! ### C9: mempool admission -/

/-- C9 (confirmed): for a non-coinbase transaction, `add_transaction`
rejects (returning `False` and leaving the pool unchanged) exactly when
validation fails, when the spendable balance — confirmed balance minus
the amount+fee of pending outgoing transactions of the same sender — is
strictly below amount+fee, or when a pending transaction already bears
the same `tx_hash`; otherwise it appends the transaction and returns
`True`. -/
theorem C9_add_transaction (ecdsa : String → String → String → String → Bool)
    (numR : ℚ → String) (st : ChainState) (tx : Transaction)
    (hcb : tx.sender ≠ "COINBASE") :
    ((txIsValid ecdsa numR tx = false ∨
      st.balances tx.sender -
        ((st.pending.filter (fun t => t.sender == tx.sender)).map
          (fun t => t.amount + t.fee)).sum < tx.amount + tx.fee ∨
      st.pending.any (fun t => t.tx_hash == tx.tx_hash) = true) →
        add_transaction ecdsa numR st tx = (false, st)) ∧
    (txIsValid ecdsa numR tx = true →
      tx.amount + tx.fee ≤
        st.balances tx.sender -
          ((st.pending.filter (fun t => t.sender == tx.sender)).map
            (fun t => t.amount + t.fee)).sum →
      st.pending.any (fun t => t.tx_hash == tx.tx_hash) = false →
        add_transaction ecdsa numR st tx = (true, { st with pending := st.pending ++ [tx] })) := by
  constructor
  · rintro (hv | hbal | hdup)
    · simp [add_transaction, hv]
    · have hlt : get_balance st tx.sender < tx.amount + tx.fee := hbal
      unfold add_transaction
      split
      · rfl
      · rw [if_pos ⟨hcb, hlt⟩]
    · unfold add_transaction
      simp [hdup]
  · intro hv hbal hdup
    unfold add_transaction
    rw [hv]
    simp only [Bool.not_true, Bool.false_eq_true, if_false]
    rw [if_neg, if_neg]
    · rw [hdup]
      simp
    · rintro ⟨-, hlt⟩
      exact absurd hbal (not_le.mpr hlt)

/-- A pool state in which address `a` has 5 confirmed coins and nothing
pending. -/
def stW : ChainState := { balances := fun s => if s = "a" then 5 else 0, pending := [] }

/-- A signed-looking transaction from `a`. -/
def txW : Transaction :=
  { sender := "a", recipient := "b", amount := 1, fee := 0, timestamp := 1,
    signature := "sig", public_key := "pk", tx_hash := "th" }

theorem C9_witness :
    add_transaction ecdsaT numR1 stW txW = (true, { stW with pending := stW.pending ++ [txW] }) :=
  (C9_add_transaction ecdsaT numR1 stW txW (by decide)).2 (by rfl)
    (by norm_num [stW, txW, get_balance]) (by rfl)

/-! ### C3: seed-to-c derivation -/

/-- Padding a short seed on the right (as `ljust` does) and then
deriving `c` gives the same result as deriving `c` from the short seed
directly. -/
theorem C3_pad_right (seed : String) (hlt : seed.length < 32) :
    generate_c_from_seed seed = generate_c_from_seed (ljustZero seed 32) := by
  have hl32 : ¬ (ljustZero seed 32).length < 32 := by
    have h32 : (ljustZero seed 32).length = 32 := by
      show (seed.data ++ List.replicate (32 - seed.data.length) '0').length = 32
      rw [List.length_append, List.length_replicate]
      have : seed.data.length < 32 := hlt
      omega
    omega
  simp only [generate_c_from_seed, if_pos hlt, if_neg hl32]

/-- C3 (amended): `generate_c_from_seed` RIGHT-pads a short seed with
`'0'` to 32 hex chars (Python `ljust`), interprets hex chars 0..15 as
`R` and 16..31 as `I`, and returns the binary64 evaluation of
`((R / 2^64) * 2 - 1, (I / 2^64) * 2 - 1)`; both components lie in the
CLOSED interval `[-1, 1]` — not strictly inside `(-1, 1)`, and not even
in `[-1, 1)`: `-1` is attained (at `R = 0`, and for small `R` by
rounding) and `1` is attained whenever `R ≥ 2^64 - 1024`, where the
float division rounds `R / 2^64` up to exactly 1.0. -/
theorem C3_generate_c (seed : String) (hhex : ∀ c ∈ seed.data, (hexDigitVal? c).isSome) :
    ∃ r i : ℚ, generate_c_from_seed seed = some (r, i) ∧
      -1 ≤ r ∧ r ≤ 1 ∧ -1 ≤ i ∧ i ≤ 1 ∧
      (seed.length < 32 →
        generate_c_from_seed seed = generate_c_from_seed (ljustZero seed 32)) := by
  set s := if seed.length < 32 then ljustZero seed 32 else seed with hs
  have hdatalt : seed.length = seed.data.length := rfl
  have hsh : ∀ c ∈ s.data, (hexDigitVal? c).isSome := by
    intro c hc
    by_cases hlt : seed.length < 32
    · rw [hs, if_pos hlt] at hc
      rcases List.mem_append.mp hc with hmem | hmem
      · exact hhex c hmem
      · rw [List.eq_of_mem_replicate hmem]
        decide
    · rw [hs, if_neg hlt] at hc
      exact hhex c hc
  have hslen : 32 ≤ s.data.length := by
    by_cases hlt : seed.length < 32
    · rw [hs, if_pos hlt]
      show 32 ≤ (seed.data ++ List.replicate (32 - seed.data.length) '0').length
      rw [List.length_append, List.length_replicate]
      omega
    · rw [hs, if_neg hlt]
      omega
  have ht_len : (strTake s 16).data.length = 16 := by
    show (s.data.take 16).length = 16
    rw [List.length_take]
    omega
  have ht_hex : ∀ c ∈ (strTake s 16).data, (hexDigitVal? c).isSome :=
    fun c hc => hsh c (List.take_subset _ _ hc)
  have ht_ne : (strTake s 16).data ≠ [] := by
    intro hnil
    rw [hnil] at ht_len
    simp at ht_len
  obtain ⟨vr, hvr, hvrlt⟩ := hexToNat?_some_of _ ht_ne ht_hex
  rw [ht_len] at hvrlt
  have hi_len : (strSlice s 16 32).data.length = 16 := by
    show ((s.data.drop 16).take (32 - 16)).length = 16
    rw [List.length_take, List.length_drop]
    omega
  have hi_hex : ∀ c ∈ (strSlice s 16 32).data, (hexDigitVal? c).isSome :=
    fun c hc => hsh c (List.drop_subset _ _ (List.take_subset _ _ hc))
  have hi_ne : (strSlice s 16 32).data ≠ [] := by
    intro hnil
    rw [hnil] at hi_len
    simp at hi_len
  obtain ⟨vi, hvi, hvilt⟩ := hexToNat?_some_of _ hi_ne hi_hex
  rw [hi_len] at hvilt
  have hvrB : vr < 18446744073709551616 := lt_of_lt_of_le hvrlt (by norm_num)
  have hviB : vi < 18446744073709551616 := lt_of_lt_of_le hvilt (by norm_num)
  obtain ⟨hr1, hr2⟩ := floatComponent_bounds hvrB
  obtain ⟨hi1, hi2⟩ := floatComponent_bounds hviB
  exact ⟨_, _, generate_c_eval seed vr vi hvr hvi, hr1, hr2, hi1, hi2, C3_pad_right seed⟩

/-- Evaluation helper for the spec-worded (left-padding) derivation. -/
theorem generate_c_spec_eval (seed : String) (r i : Nat)
    (h1 : hexToNat? (strTake (if seed.length < 32 then
      String.mk (List.replicate (32 - seed.length) '0' ++ seed.data) else seed) 16) = some r)
    (h2 : hexToNat? (strSlice (if seed.length < 32 then
      String.mk (List.replicate (32 - seed.length) '0' ++ seed.data) else seed) 16 32) =
      some i) :
    generate_c_from_seed_spec seed = some (floatComponent r, floatComponent i) := by
  simp only [generate_c_from_seed_spec]
  rw [h1, h2]

/-- C3 counterexample: on the one-character seed `"8"` the source
right-pads (`ljust`) and returns `c = (0, -1)`: it differs from the
left-padded derivation the claim describes (which itself rounds to
`(-1, -1)` in binary64), its imaginary component `-1` is not strictly
inside `(-1, 1)`, and on the seed of 32 `'f'`s the float division
rounds up so that BOTH components are exactly `1`, outside `(-1, 1)`
on the other side as well. -/
theorem C3_counterexample :
    generate_c_from_seed "8" = some (0, -1) ∧
    generate_c_from_seed_spec "8" = some (-1, -1) ∧
    generate_c_from_seed "8" ≠ generate_c_from_seed_spec "8" ∧
    generate_c_from_seed "ffffffffffffffffffffffffffffffff" = some (1, 1) ∧
    ¬ ((-1 : ℚ) < -1) ∧ ¬ ((1 : ℚ) < 1) := by
  have h1 : generate_c_from_seed "8" = some (0, -1) := by
    rw [generate_c_eval "8" 9223372036854775808 0 (by decide) (by decide),
      floatComponent_half, floatComponent_zero]
  have h2 : generate_c_from_seed_spec "8" = some (-1, -1) := by
    rw [generate_c_spec_eval "8" 0 8 (by decide) (by decide),
      floatComponent_zero, floatComponent_eight]
  have h4 : generate_c_from_seed "ffffffffffffffffffffffffffffffff" = some (1, 1) := by
    rw [generate_c_eval "ffffffffffffffffffffffffffffffff" 18446744073709551615
        18446744073709551615 (by decide) (by decide), floatComponent_big]
  refine ⟨h1, h2, ?_, h4, by norm_num, by norm_num⟩
  rw [h1, h2]
  intro hcon
  have := (Prod.mk.injEq _ _ _ _).mp (Option.some.injEq _ _ ▸ hcon)
  norm_num at this

theorem C3_witness :
    ∃ r i : ℚ, generate_c_from_seed "ab" = some (r, i) ∧
      -1 ≤ r ∧ r ≤ 1 ∧ -1 ≤ i ∧ i ≤ 1 ∧
      ((String.length "ab") < 32 →
        generate_c_from_seed "ab" = generate_c_from_seed (ljustZero "ab" 32)) :=
  C3_generate_c "ab" (by decide)

/-! ### C4: deterministic search points -/

/-- The rehash chain of `searchPointsGo` started at loop counter `j`. -/
def chainFrom (cur : String) (j : Nat) : Nat → String
  | 0 => cur
  | t + 1 => sha256Hex (chainFrom cur j t ++ Nat.repr (j + t))

theorem chainFrom_shift (cur : String) (j : Nat) :
    ∀ t, chainFrom cur j (t + 1) = chainFrom (sha256Hex (cur ++ Nat.repr j)) (j + 1) t
  | 0 => by simp [chainFrom]
  | t + 1 => by
    show sha256Hex (chainFrom cur j (t + 1) ++ Nat.repr (j + (t + 1))) = _
    rw [chainFrom_shift cur j t]
    show _ = sha256Hex (chainFrom (sha256Hex (cur ++ Nat.repr j)) (j + 1) t ++
      Nat.repr (j + 1 + t))
    rw [show j + (t + 1) = j + 1 + t from by omega]

theorem chainSeed_eq_chainFrom (seed : String) : ∀ n, chainSeed seed n = chainFrom seed 0 n
  | 0 => rfl
  | n + 1 => by
    show sha256Hex (chainSeed seed n ++ Nat.repr n) = sha256Hex (chainFrom seed 0 n ++
      Nat.repr (0 + n))
    rw [chainSeed_eq_chainFrom seed n, Nat.zero_add]

theorem searchPointsGo_length (cur : String) (j : Nat) :
    ∀ k, (searchPointsGo cur j k).length = k
  | 0 => rfl
  | k + 1 => by simp [searchPointsGo, searchPointsGo_length _ _ k]

theorem searchPointsGo_getD (m : Nat) : ∀ (k : Nat) (cur : String) (j : Nat), m < k →
    (searchPointsGo cur j k).getD m (0, 0) = extractPoint (chainFrom cur j (m + 1)) := by
  induction m with
  | zero =>
    intro k cur j hk
    match k, hk with
    | kk + 1, _ =>
      show extractPoint (sha256Hex (cur ++ Nat.repr j)) = extractPoint (chainFrom cur j 1)
      rw [show chainFrom cur j 1 = sha256Hex (chainFrom cur j 0 ++ Nat.repr (j + 0)) from rfl]
      rfl
  | succ m ih =>
    intro k cur j hk
    match k, hk with
    | kk + 1, hk =>
      show (searchPointsGo (sha256Hex (cur ++ Nat.repr j)) (j + 1) kk).getD m (0, 0) = _
      rw [ih kk _ (j + 1) (by omega), ← chainFrom_shift]

/-- C4 (amended): the `i`-th search point (`i = 1..n`) is the R/I
extraction of `seed_i` where the rehash chain is
`seed_i = SHA256(seed_(i-1) || decimal(i-1))` — the decimal appended is
the 0-based loop counter `i-1`, not `i`. -/
theorem C4_search_points (seed : String) (n i : Nat) (h1 : 1 ≤ i) (h2 : i ≤ n) :
    (generate_search_points seed n).getD (i - 1) (0, 0) =
      extractPoint (chainSeed seed i) ∧
    (generate_search_points seed n).length = n := by
  constructor
  · unfold generate_search_points
    rw [searchPointsGo_getD (i - 1) n seed 0 (by omega), ← chainSeed_eq_chainFrom,
      show i - 1 + 1 = i from by omega]
  · exact searchPointsGo_length seed 0 n

theorem C4_witness :
    (generate_search_points "ab" 1).getD (1 - 1) (0, 0) =
      extractPoint (chainSeed "ab" 1) ∧
    (generate_search_points "ab" 1).length = 1 :=
  C4_search_points "ab" 1 1 (by decide) (by decide)

set_option maxRecDepth 100000 in
/-- C4 counterexample: with seed `"ab"` and one point, the source
appends `decimal(0)` (hashing `"ab0"`), not `decimal(1)` as the claim's
chain `SHA256(seed || decimal(1))` would (hashing `"ab1"`); the
resulting first points differ. -/
theorem C4_counterexample :
    generate_search_points "ab" 1 = [extractPoint (sha256Hex ("ab" ++ "0"))] ∧
    generate_search_points "ab" 1 ≠ [extractPoint (chainSeedSpec "ab" 1)] := by
  constructor
  · rfl
  · intro hcon
    have h0 : extractPoint (sha256Hex "ab0") = extractPoint (sha256Hex "ab1") := by
      have := List.head_eq_of_cons_eq hcon
      simpa [generate_search_points, searchPointsGo, chainSeedSpec, chainSeed] using this
    have hne : (hexToNatD (strTake (sha256Hex "ab0") 16) : ℚ) ≠
        (hexToNatD (strTake (sha256Hex "ab1") 16) : ℚ) := by
      intro hq
      have : hexToNatD (strTake (sha256Hex "ab0") 16) =
          hexToNatD (strTake (sha256Hex "ab1") 16) := by exact_mod_cast hq
      rw [show hexToNatD (strTake (sha256Hex "ab0") 16) = 5298598908436628295 from by decide,
        show hexToNatD (strTake (sha256Hex "ab1") 16) = 14581433471551680394 from by decide]
        at this
      omega
    apply hne
    have := congrArg Prod.fst h0
    simp only [extractPoint] at this
    have h2 : (hexToNatD (strTake (sha256Hex "ab0") 16) : ℚ) / 18446744073709551616 =
        (hexToNatD (strTake (sha256Hex "ab1") 16) : ℚ) / 18446744073709551616 := by
      linarith
    have h3 := congrArg (fun x : ℚ => x * 18446744073709551616) h2
    simpa using h3

/-! ### C8: merkle proofs verify against the root -/

theorem pairup_length : ∀ l : List String, (pairup l).length = (l.length + 1) / 2
  | [] => rfl
  | [_] => by simp [pairup]
  | _ :: _ :: rest => by
    show (pairup rest).length + 1 = _
    rw [pairup_length rest]
    simp only [List.length_cons]
    omega

theorem pairup_getD : ∀ (l : List String) (j : Nat), 2 * j < l.length →
    (pairup l).getD j "" = hashPair (l.getD (2 * j) "")
      (if 2 * j + 1 < l.length then l.getD (2 * j + 1) "" else l.getD (2 * j) "")
  | [], j, hj => absurd hj (by simp)
  | [a], j, hj => by
    have hj0 : j = 0 := by simp at hj; omega
    subst hj0
    simp [pairup]
  | a :: b :: rest, j, hj => by
    cases j with
    | zero =>
      have : (1 : Nat) < (a :: b :: rest).length := by simp
      simp [pairup, this]
    | succ j =>
      have hrec := pairup_getD rest j (by simp at hj; omega)
      show (pairup rest).getD j "" = _
      rw [hrec]
      have e1 : (a :: b :: rest).getD (2 * (j + 1)) "" = rest.getD (2 * j) "" := by
        rw [show 2 * (j + 1) = 2 * j + 1 + 1 from by ring]
        rfl
      have e2 : (a :: b :: rest).getD (2 * (j + 1) + 1) "" = rest.getD (2 * j + 1) "" := by
        rw [show 2 * (j + 1) + 1 = 2 * j + 1 + 1 + 1 from by ring]
        rfl
      have e3 : (2 * (j + 1) + 1 < (a :: b :: rest).length) ↔ (2 * j + 1 < rest.length) := by
        simp only [List.length_cons]
        omega
      rw [e1]
      by_cases hc : 2 * j + 1 < rest.length
      · rw [if_pos hc, if_pos (e3.mpr hc), e2]
      · rw [if_neg hc, if_neg (fun hx => hc (e3.mp hx))]

theorem verifyStep_proofStep (l : List String) (i : Nat) (_h2 : 2 ≤ l.length)
    (hi : i < l.length) :
    verifyStep (l.getD i "") (proofStep l i) = (pairup l).getD (i / 2) "" := by
  rcases Nat.mod_two_eq_zero_or_one i with hpar | hpar
  · have hieq : 2 * (i / 2) = i := by omega
    have hget := pairup_getD l (i / 2) (by omega)
    rw [hieq] at hget
    unfold proofStep
    rw [if_pos (by simp [hpar])]
    by_cases hc : i + 1 < l.length
    · rw [if_pos hc, hget, if_pos hc]
      rfl
    · rw [if_neg hc, hget, if_neg hc]
      rfl
  · have hieq : 2 * (i / 2) = i - 1 := by omega
    have hget := pairup_getD l (i / 2) (by omega)
    rw [hieq] at hget
    unfold proofStep
    rw [if_neg (by simp [hpar])]
    rw [hget, if_pos (by omega), show i - 1 + 1 = i from by omega]
    rfl

theorem merkle_main : ∀ (fuel : Nat) (l : List String) (i : Nat), 0 < l.length →
    l.length ≤ fuel → i < l.length →
    (proofAux fuel l i).foldl verifyStep (l.getD i "") = rootAux fuel l := by
  intro fuel
  induction fuel with
  | zero => intro l i h1 h2 h3; omega
  | succ fuel ih =>
    intro l i h1 h2 h3
    by_cases hl : l.length ≤ 1
    · have hlen1 : l.length = 1 := by omega
      have hi0 : i = 0 := by omega
      subst hi0
      obtain ⟨a, ha⟩ := List.length_eq_one.mp hlen1
      subst ha
      simp [proofAux, rootAux]
    · have hl2 : 2 ≤ l.length := by omega
      rw [show proofAux (fuel + 1) l i = proofStep l i :: proofAux fuel (pairup l) (i / 2) from
        by rw [proofAux, if_neg hl]]
      rw [List.foldl_cons, verifyStep_proofStep l i hl2 h3]
      rw [show rootAux (fuel + 1) l = rootAux fuel (pairup l) from by rw [rootAux, if_neg hl]]
      exact ih (pairup l) (i / 2) (by rw [pairup_length]; omega)
        (by rw [pairup_length]; omega) (by rw [pairup_length]; omega)

theorem firstIdx?_mem (x : String) : ∀ l : List String, x ∈ l →
    ∃ i, firstIdx? x l = some i ∧ i < l.length ∧ l.getD i "" = x
  | [], hx => absurd hx (by simp)
  | y :: rest, hx => by
    by_cases hy : y = x
    · exact ⟨0, by simp [firstIdx?, hy], by simp, by simp [hy]⟩
    · have hxr : x ∈ rest := by
        rcases List.mem_cons.mp hx with h | h
        · exact absurd h.symm hy
        · exact h
      obtain ⟨i, hi1, hi2, hi3⟩ := firstIdx?_mem x rest hxr
      exact ⟨i + 1, by simp [firstIdx?, hy, hi1], by simp; omega, by simpa using hi3⟩

/-- C8 (confirmed): for every non-empty list of transaction hashes and
every hash occurring in it, the proof returned by `get_proof` verifies
against `compute_merkle_root` with `verify_proof` — including levels of
odd width, where the last node is duplicated. -/
theorem C8_merkle_roundtrip (H : List String) (h : String) (hne : H ≠ [])
    (hmem : h ∈ H) :
    ∃ proof, get_proof H h = some proof ∧
      verify_proof h (compute_merkle_root H) proof = true := by
  have hlen : 0 < H.length := List.length_pos.mpr hne
  obtain ⟨i, hidx, hilt, hget⟩ := firstIdx?_mem h H hmem
  refine ⟨proofAux H.length H i, ?_, ?_⟩
  · unfold get_proof
    rw [hidx]
  · unfold verify_proof compute_merkle_root
    rw [if_neg (by simpa [List.isEmpty_iff] using hne)]
    rw [← hget, merkle_main H.length H i hlen (le_refl _) hilt]
    exact beq_self_eq_true _

theorem C8_witness :
    (["aa", "bb", "cc"] : List String) ≠ [] ∧
    "cc" ∈ (["aa", "bb", "cc"] : List String) ∧
    ∃ proof, get_proof ["aa", "bb", "cc"] "cc" = some proof ∧
      verify_proof "cc" (compute_merkle_root ["aa", "bb", "cc"]) proof = true :=
  ⟨by decide, by decide, C8_merkle_roundtrip ["aa", "bb", "cc"] "cc" (by decide) (by decide)⟩

/-! ### C2: coinbase placement -/

/-- C2 (amended): a non-genesis block whose previous-hash/index checks,
merkle recomputation, per-transaction validity and block-hash
recomputation all pass is accepted iff it contains EXACTLY ONE coinbase
transaction — in any position, not necessarily first; a second coinbase
still invalidates the block. -/
theorem C2_coinbase_count (ecdsa : String → String → String → String → Bool)
    (numR : ℚ → String) (b : Block) (prev : Option Block)
    (h0 : b.index ≠ 0)
    (h1 : ∀ p, prev = some p → b.previous_hash = p.block_hash ∧ b.index = p.index + 1)
    (h2 : b.merkle_root = blockCalculateMerkleRoot b)
    (h3 : b.transactions.all (fun tx => txIsValid ecdsa numR tx) = true)
    (h4 : b.block_hash = blockCalculateHash numR b) :
    (blockIsValid ecdsa numR b prev = true ↔
      (b.transactions.filter (fun tx => tx.sender == "COINBASE")).length = 1) := by
  have htail :
      ((if (b.merkle_root != blockCalculateMerkleRoot b) = true then false
        else if (!b.transactions.all fun tx => txIsValid ecdsa numR tx) = true then false
        else if ((List.filter (fun tx => tx.sender == "COINBASE") b.transactions).length != 1) =
            true then false
        else if (b.block_hash != blockCalculateHash numR b) = true then false
        else true) = true ↔
      (List.filter (fun tx => tx.sender == "COINBASE") b.transactions).length = 1) := by
    rw [if_neg (by simpa using h2), if_neg (by simp [h3])]
    by_cases hc : (List.filter (fun tx => tx.sender == "COINBASE") b.transactions).length = 1
    · rw [if_neg (by simpa using hc), if_neg (by simpa using h4)]
      simp [hc]
    · rw [if_pos (by simpa using hc)]
      simp [hc]
  unfold blockIsValid
  rw [if_neg (by simpa using h0)]
  cases prev with
  | none =>
    simpa using htail
  | some p =>
    obtain ⟨hp1, hp2⟩ := h1 p rfl
    simpa [hp1, hp2] using htail

/-- A correctly paying transaction whose (abstract) signature checks
out. -/
def txA : Transaction :=
  { sender := "alice", recipient := "bob", amount := 1, fee := 0, timestamp := 0,
    signature := "s", public_key := "p", tx_hash := "aa" }

/-- The coinbase of the counterexample block. -/
def cbTx : Transaction :=
  { sender := "COINBASE", recipient := "m", amount := 50, fee := 0, timestamp := 0,
    signature := "coinbase_block_1", public_key := "", tx_hash := "bb" }

/-- A non-genesis block whose SINGLE coinbase is the SECOND transaction;
merkle root and block hash are the genuine recomputed values. -/
def cBlock : Block :=
  { index := 1, timestamp := 0, transactions := [txA, cbTx], previous_hash := "ab",
    miner_address := "m", fractal_proof := none,
    merkle_root := "486b34250bd4400c0aa90516fce9a9c0633a922eb40d0828cf299bc4e825acf4",
    block_hash := "861defc7e83d551d77997684e94c3cde393a530ec16140955c77691d4ac7a923",
    difficulty_target := 3 / 2, header_difficulty_bits := 16 }

set_option maxRecDepth 1000000 in
/-- C2 counterexample: `Block.is_valid` accepts `cBlock` although its
single coinbase sits in the second position, not the first — the source
only counts coinbase transactions and never checks their position. -/
theorem C2_counterexample :
    blockIsValid ecdsaT numR0 cBlock none = true ∧
    (cBlock.transactions.getD 1 txA).sender = "COINBASE" ∧
    (cBlock.transactions.getD 0 txA).sender ≠ "COINBASE" := by
  refine ⟨by rfl, by rfl, by decide⟩

set_option maxRecDepth 1000000 in
theorem C2_witness :
    blockIsValid ecdsaT numR0 cBlock none = true ↔
      (cBlock.transactions.filter (fun tx => tx.sender == "COINBASE")).length = 1 :=
  C2_coinbase_count ecdsaT numR0 cBlock none (by decide) (fun p hp => nomatch hp)
    (by rfl) (by rfl) (by rfl)

/-! ### C1: signed bytes versus hashed bytes -/

/-- In the spaced (default-separator) rendering used by `sign` and
`verify_signature`, the character at index 10 — right after the key
`"amount":` — is the space of the `": "` separator. -/
theorem signMsg_getD10 (a f r s t : String) :
    (pyDumpsObj ", " ": "
      [("sender", .atom (.jstr s)), ("recipient", .atom (.jstr r)),
       ("amount", .atom (.jnum a)), ("fee", .atom (.jnum f)),
       ("timestamp", .atom (.jnum t))]).data.getD 10 'q' = ' ' := by
  obtain ⟨ad⟩ := a
  obtain ⟨fd⟩ := f
  obtain ⟨td⟩ := t
  rfl

/-- In the compact rendering hashed into `tx_hash`, the character at
index 10 is the first character of the rendered amount (or the `','`
separator if that rendering is empty). -/
theorem hashMsg_getD10 (a f r s t : String) :
    (pyDumpsObj "," ":"
      [("sender", .atom (.jstr s)), ("recipient", .atom (.jstr r)),
       ("amount", .atom (.jnum a)), ("fee", .atom (.jnum f)),
       ("timestamp", .atom (.jnum t))]).data.getD 10 'q' = a.data.headD ',' := by
  obtain ⟨ad⟩ := a
  obtain ⟨fd⟩ := f
  obtain ⟨td⟩ := t
  cases ad with
  | nil => rfl
  | cons c cs => rfl

/-- The spaced and the compact renderings of the transaction dict are
never the same byte string (they differ at index 10), as long as the
rendered amount does not begin with a space — Python float renderings
never do. -/
theorem signMsg_ne_hashMsg (a f r s t : String) (hsp : a.data.headD ',' ≠ ' ') :
    pyDumpsObj ", " ": "
      [("sender", .atom (.jstr s)), ("recipient", .atom (.jstr r)),
       ("amount", .atom (.jnum a)), ("fee", .atom (.jnum f)),
       ("timestamp", .atom (.jnum t))] ≠
    pyDumpsObj "," ":"
      [("sender", .atom (.jstr s)), ("recipient", .atom (.jstr r)),
       ("amount", .atom (.jnum a)), ("fee", .atom (.jnum f)),
       ("timestamp", .atom (.jnum t))] := by
  intro heq
  have h10 : (pyDumpsObj ", " ": "
      [("sender", .atom (.jstr s)), ("recipient", .atom (.jstr r)),
       ("amount", .atom (.jnum a)), ("fee", .atom (.jnum f)),
       ("timestamp", .atom (.jnum t))]).data.getD 10 'q' =
      (pyDumpsObj "," ":"
      [("sender", .atom (.jstr s)), ("recipient", .atom (.jstr r)),
       ("amount", .atom (.jnum a)), ("fee", .atom (.jnum f)),
       ("timestamp", .atom (.jnum t))]).data.getD 10 'q' := by rw [heq]
  rw [signMsg_getD10, hashMsg_getD10] at h10
  exact hsp h10.symm

/-- C1 (amended): the byte string signed by `sign` and the byte string
checked by `verify_signature` coincide (both are the sorted-keys JSON
of the signatureless dict rendered with Python's DEFAULT separators
`", "`/`": "`), and `tx_hash` is the SHA-256 of the same dict rendered
COMPACTLY (separators `","`/`":"`); the signed byte string therefore
always differs from the hashed byte string (whenever the rendered
amount does not begin with a space, which no Python float rendering
does). -/
theorem C1_signed_bytes (numR : ℚ → String) (tx : Transaction)
    (hsp : (numR tx.amount).data.headD ',' ≠ ' ') :
    txSignMessage numR tx = txVerifyMessage numR tx ∧
    txCalculateHash numR tx = sha256Hex (txHashMessage numR tx) ∧
    txSignMessage numR tx ≠ txHashMessage numR tx :=
  ⟨rfl, rfl,
   signMsg_ne_hashMsg (numR tx.amount) (numR tx.fee) tx.recipient tx.sender
     (numR tx.timestamp) hsp⟩

/-- A transaction whose numeric fields are all `1.0`. -/
def txW1 : Transaction :=
  { sender := "alice", recipient := "bob", amount := 1, fee := 1, timestamp := 1,
    signature := "sig", public_key := "pk", tx_hash := "th" }

theorem C1_witness :
    txSignMessage numR1 txW1 = txVerifyMessage numR1 txW1 ∧
    txCalculateHash numR1 txW1 = sha256Hex (txHashMessage numR1 txW1) ∧
    txSignMessage numR1 txW1 ≠ txHashMessage numR1 txW1 :=
  C1_signed_bytes numR1 txW1 (by decide)

/-- C1 counterexample: for a concrete transaction the byte string that
is signed (and verified) carries spaces after `,` and `:`, while the
`tx_hash` preimage is compact: the two byte strings are NOT the same. -/
theorem C1_counterexample :
    txSignMessage numR1 txW1 =
      "\x7b\"amount\": 1.0, \"fee\": 1.0, \"recipient\": \"bob\", \"sender\": \"alice\", \"timestamp\": 1.0\x7d" ∧
    txHashMessage numR1 txW1 =
      "\x7b\"amount\":1.0,\"fee\":1.0,\"recipient\":\"bob\",\"sender\":\"alice\",\"timestamp\":1.0\x7d" ∧
    txSignMessage numR1 txW1 ≠ txHashMessage numR1 txW1 := by
  refine ⟨rfl, rfl, by decide⟩
